import Mathlib

/-!
Shallow embedding of `src/GO_word_cloud_fixed.py`, a batch utility that
renders word-cloud images from a Gene-Ontology enrichment table.

Modelling conventions:
* Python `float` arithmetic is modelled over `ℚ`; `int(x)` (truncation
  toward zero) is `pyInt`.
* Python list indexing (which accepts negative indices wrapping from the
  end and raises `IndexError` out of range) is `pyGet`, returning `Option`.
* A Python `dict` built by repeated assignment is an association list with
  in-place overwrite (`dictInsert`), preserving insertion order, which is
  exactly CPython semantics.
* The pandas / matplotlib / wordcloud collaborators are external: the
  orchestration loop `generate_go_wordcloud` takes a `RunEnv` whose
  `render` field models the un-guarded calls of lines 181-187
  (`wc.generate_from_frequencies` and the `plt` setup calls, any of whose
  exceptions propagate) and whose `save` field models the
  `plt.savefig` call that lines 191-195 wrap in `try/except`.
* A run outcome is `List Event × Option Bool`: the events are the status
  lines printed, `some b` means the function returned `b`, and `none`
  means an exception escaped `generate_go_wordcloud` uncaught.
-/

namespace GoCloud

/-- One record of the enrichment table (line 66 lists the required columns). -/
structure Row where
  ID : String
  Description : String
  ONTOLOGY : String
  OccurrenceCount : ℕ
deriving DecidableEq, Repr

/-- A parsed table: the header column names plus the data rows.  A `Row`
field is only meaningful when the corresponding column name is present in
`cols`; the code checks `cols` before touching any field. -/
structure Table where
  cols : List String
  rows : List Row
deriving DecidableEq, Repr

/-- Line 66: the list of the four required column names. -/
def requiredCols : List String := ["ID", "Description", "ONTOLOGY", "OccurrenceCount"]

/-- Line 67: `[col for col in required_cols if col not in df.columns]`. -/
def missingCols (t : Table) : List String :=
  requiredCols.filter (fun c => !(t.cols.contains c))

/-- Line 81: the display field is ID when use-id is set, else Description; here applied to a row. -/
def displayText (useId : Bool) (r : Row) : String :=
  if useId then r.ID else r.Description

/-- Python `str.upper()`: uppercase the string character by character
(the category strings of the table are plain ASCII). -/
def pyUpper (s : String) : String := ⟨s.data.map Char.toUpper⟩

/-- Lines 43-47.  `none` models passing Python `None`. -/
def filter_by_ontology (df : List Row) (ontology : Option String) : List Row :=
  match ontology with
  | none => df
  | some o =>
    if pyUpper o = "ALL" then df
    else df.filter (fun r => r.ONTOLOGY == pyUpper o)

/-- CPython dict assignment `d[k] = v`: overwrite in place if the key is
present (keys are unique, so replacing the first hit is faithful),
otherwise append at the end. -/
def dictInsert : List (String × ℕ) → String → ℕ → List (String × ℕ)
  | [], k, v => [(k, v)]
  | p :: rest, k, v => if p.1 == k then (k, v) :: rest else p :: dictInsert rest k v

/-- Python `d.get(k)` as an `Option`: first (and only) binding of the key. -/
def lookupFM : List (String × ℕ) → String → Option ℕ
  | [], _ => none
  | p :: rest, k => if p.1 == k then some p.2 else lookupFM rest k

/-- Folding `dictInsert` of each row over a starting dict. -/
def foldIns (useId : Bool) (m : List (String × ℕ)) (rows : List Row) : List (String × ℕ) :=
  rows.foldl (fun acc r => dictInsert acc (displayText useId r) r.OccurrenceCount) m

/-- Lines 84 and 116: the dict built by zipping the display column with the
count column; later rows overwrite earlier ones sharing the display text. -/
def buildFreqMap (rows : List Row) (useId : Bool) : List (String × ℕ) :=
  foldIns useId [] rows

/-- Python `d.values()` in insertion order. -/
def dictValues (m : List (String × ℕ)) : List ℕ := m.map (·.2)

/-- Python `max(xs)`: raises `ValueError` (here `none`) on an empty iterable. -/
def listMax : List ℕ → Option ℕ
  | [] => none
  | x :: xs => some (xs.foldl max x)

/-- Line 85: `global_max_freq = max(all_freq_dict.values())`. -/
def globalMaxFreq (rows : List Row) (useId : Bool) : Option ℕ :=
  listMax (dictValues (buildFreqMap rows useId))

/-- Python `int(x)` on a float: truncation toward zero. -/
def pyInt (q : ℚ) : ℤ := if 0 ≤ q then ⌊q⌋ else ⌈q⌉

/-- Python list subscription `l[i]`: negative indices wrap from the end,
anything out of `[-len, len)` raises `IndexError` (here `none`). -/
def pyGet (l : List α) (i : ℤ) : Option α :=
  if 0 ≤ i then l.get? i.toNat
  else if 0 ≤ i + l.length then l.get? (i + l.length).toNat
  else none

/-- An RGB palette stop, each channel a real number (the source keeps them
in `[0,1]`, but nothing enforces that). -/
abbrev RGB := ℚ × ℚ × ℚ

/-- Lines 12-21: the palette table, decimal literals read exactly into `ℚ`. -/
def COLOR_SCHEMES : List (String × List RGB) :=
  [("BP", [(0, 0.5, 0.8), (0, 0.7, 1), (0.1, 0.8, 1)]),
   ("CC", [(0, 0.6, 0.3), (0.2, 0.8, 0.4), (0.4, 0.9, 0.5)]),
   ("MF", [(0.7, 0.1, 0.2), (0.9, 0.2, 0.3), (1, 0.4, 0.4)]),
   ("ALL", [(0.5, 0, 0.8), (0.3, 0.3, 0.9), (0, 0.6, 0.6), (0.1, 0.8, 0.4)]),
   ("blue_purple", [(0.1, 0.1, 0.9), (0.5, 0, 0.8), (0.8, 0.1, 0.5)]),
   ("scientific", [(0, 0.3, 0.7), (0, 0.5, 0.5), (0.1, 0.7, 0.4)]),
   ("elegant", [(0.2, 0.2, 0.5), (0.4, 0.2, 0.4), (0.6, 0.2, 0.3)])]

/-- Line 135: `freq = freq_dict.get(word, 1)`. -/
def freqOf (freq_dict : List (String × ℕ)) (word : String) : ℕ :=
  (lookupFM freq_dict word).getD 1

/-- Line 137: `freq_norm = min(1.0, freq / global_max_freq)`.  The operands
are numpy `int64` scalars, so a zero `global_max` yields `inf` (or `nan`
for `0/0`) with a runtime warning instead of raising, and Python
`min(1.0, inf) = min(1.0, nan) = 1.0`; hence the zero branch returns `1`. -/
def freqNorm (freq global_max : ℕ) : ℚ :=
  if global_max = 0 then 1 else min 1 ((freq : ℚ) / (global_max : ℚ))

/-- Line 140: `idx = min(int(freq_norm * (len(colors) - 1) * 100), len(colors) - 2)`. -/
def colorIdx (freq_norm : ℚ) (L : ℕ) : ℤ :=
  min (pyInt (freq_norm * ((L : ℚ) - 1) * 100)) ((L : ℤ) - 2)

/-- Line 141: the subscript `idx // 100` (Python floor division). -/
def startIdx (idx : ℤ) : ℤ := idx.fdiv 100

/-- Line 142: the subscript `min(idx // 100 + 1, len(colors) - 1)`. -/
def endIdx (idx : ℤ) (L : ℕ) : ℤ := min (idx.fdiv 100 + 1) ((L : ℤ) - 1)

/-- Lines 146-148: per-channel linear interpolation. -/
def lerp (a b t : ℚ) : ℚ := a * (1 - t) + b * t

/-- Lines 132-150: the per-word color callback closed over the per-category
frequency dict, the global maximum and the palette stop list.  `none`
models an `IndexError` escaping from the palette subscriptions. -/
def custom_color_func (freq_dict : List (String × ℕ)) (global_max : ℕ)
    (colors : List RGB) (word : String) : Option (ℤ × ℤ × ℤ) :=
  let freq := freqOf freq_dict word
  let freq_norm := freqNorm freq global_max
  let idx := colorIdx freq_norm colors.length
  match pyGet colors (startIdx idx), pyGet colors (endIdx idx colors.length) with
  | some s, some e =>
    let t : ℚ := (idx.fmod 100 : ℚ) / 100
    some (pyInt (lerp s.1 e.1 t * 255),
          pyInt (lerp s.2.1 e.2.1 t * 255),
          pyInt (lerp s.2.2 e.2.2 t * 255))
  | _, _ => none

/-- The fine-grained index as a natural number; for `2 ≤ L` and positive
`global_max` it coincides with `colorIdx` (proved below). -/
def fineIdx (freq global_max L : ℕ) : ℕ :=
  min (⌊freqNorm freq global_max * ((L : ℚ) - 1) * 100⌋).toNat (L - 2)

/-- Value of one color channel (selected by `proj`) of the piecewise-linear
ramp at fine index `k` over the palette stop list. -/
def rampVal (colors : List RGB) (proj : RGB → ℚ) (k : ℕ) : ℚ :=
  lerp (proj (colors.getD (k / 100) (0, 0, 0)))
       (proj (colors.getD (k / 100 + 1) (0, 0, 0)))
       ((k % 100 : ℕ) / 100)

/-- The stop list is non-decreasing in the channel selected by `proj`. -/
def adjMonoIn (colors : List RGB) (proj : RGB → ℚ) : Prop :=
  ∀ i < colors.length - 1,
    proj (colors.getD i (0, 0, 0)) ≤ proj (colors.getD (i + 1) (0, 0, 0))

/-- The second color is strictly smaller than the first in all three channels. -/
def allBelow (c c' : ℤ × ℤ × ℤ) : Prop :=
  c'.1 < c.1 ∧ c'.2.1 < c.2.1 ∧ c'.2.2 < c.2.2

/-- Status lines printed by the run, in order. -/
inductive Event where
  | loadError (msg : String)
  | schemaError (missing : List String)
  | skippedEmptyCat (cat : String)
  | skippedEmptyDict (cat : String)
  | rendering (cat : String) (entries : ℕ)
  | saved (cat : String) (file : String)
  | saveFailed (cat : String) (msg : String)
  | summary (total bp cc mf : ℕ)
deriving DecidableEq, Repr

/-- External collaborators: `render` stands for the un-guarded
`wc.generate_from_frequencies` plus `plt` setup calls of lines 181-187
(an `error` is an exception that the source does not catch), `save` for
the `plt.savefig` call of line 192 (guarded by `try/except`). -/
structure RunEnv where
  render : String → List (String × ℕ) → Except String Unit
  save : String → Except String Unit

/-- Lines 88-101: category order, output file names and enable flags. -/
def catSettings (outPfx : String) : List (String × String) :=
  [("ALL", outPfx ++ "_all.png"), ("BP", outPfx ++ "_bp.png"),
   ("CC", outPfx ++ "_cc.png"), ("MF", outPfx ++ "_mf.png")]

/-- Lines 96-101: `generate_flags`. -/
def flagFor (genAll genBp genCc genMf : Bool) (cat : String) : Bool :=
  if cat == "ALL" then genAll
  else if cat == "BP" then genBp
  else if cat == "CC" then genCc
  else if cat == "MF" then genMf
  else false

/-- Lines 104-197: the per-category loop.  Returns the events emitted and
`true` when the loop ran to completion, `false` when an exception from the
un-guarded render step aborted it. -/
def runLoop (env : RunEnv) (df : List Row) (useId : Bool) (flags : String → Bool)
    (allFreq : List (String × ℕ)) : List (String × String) → List Event × Bool
  | [] => ([], true)
  | (cat, file) :: rest =>
    if flags cat then
      let filtered := filter_by_ontology df (some cat)
      if filtered.isEmpty then
        let res := runLoop env df useId flags allFreq rest
        (Event.skippedEmptyCat cat :: res.1, res.2)
      else
        let freq := buildFreqMap filtered useId
        if freq.isEmpty then
          let res := runLoop env df useId flags allFreq rest
          (Event.skippedEmptyDict cat :: res.1, res.2)
        else
          let hdr := Event.rendering cat freq.length
          let data := if cat == "ALL" then allFreq else freq
          match env.render cat data with
          | Except.error _ => ([hdr], false)
          | Except.ok _ =>
            match env.save file with
            | Except.error e =>
              let res := runLoop env df useId flags allFreq rest
              (hdr :: Event.saveFailed cat e :: res.1, res.2)
            | Except.ok _ =>
              let res := runLoop env df useId flags allFreq rest
              (hdr :: Event.saved cat file :: res.1, res.2)
    else runLoop env df useId flags allFreq rest

/-- Lines 49-210, `generate_go_wordcloud`.  The two-delimiter
`pd.read_csv` attempt of lines 56-63 is pure file IO, so its outcome is
the `input` parameter: `Except.error` is the case where both parses
failed (print an error, return `False`).  The font lookup of lines 72-78,
the palette resolution of lines 126-154 and the WordCloud construction
only feed the external renderer and print no line modelled here.  The
result `none` models an exception escaping uncaught (there is no
`try/except` around line 85 or around the render step). -/
def generate_go_wordcloud (env : RunEnv) (input : Except String Table)
    (outPfx : String) (useId : Bool)
    (genAll genBp genCc genMf : Bool) : List Event × Option Bool :=
  match input with
  | Except.error e => ([Event.loadError e], some false)
  | Except.ok t =>
    let missing := missingCols t
    if missing.isEmpty then
      let allFreq := buildFreqMap t.rows useId
      match listMax (dictValues allFreq) with
      | none => ([], none)
      | some _gm =>
        let flags := flagFor genAll genBp genCc genMf
        let res := runLoop env t.rows useId flags allFreq (catSettings outPfx)
        if res.2 then
          let bp := (t.rows.filter (fun r => r.ONTOLOGY == "BP")).length
          let cc := (t.rows.filter (fun r => r.ONTOLOGY == "CC")).length
          let mf := (t.rows.filter (fun r => r.ONTOLOGY == "MF")).length
          (res.1 ++ [Event.summary t.rows.length bp cc mf], some true)
        else (res.1, none)
    else ([Event.schemaError missing], some false)

/-- Sample table of the specification scenario: one row per ontology. -/
def sampleTable : Table :=
  ⟨["ID", "Description", "ONTOLOGY", "OccurrenceCount"],
   [⟨"GO:001", "desc a", "BP", 10⟩,
    ⟨"GO:002", "desc b", "CC", 5⟩,
    ⟨"GO:003", "desc c", "MF", 3⟩]⟩

/-- A table whose first row is overwritten in the aggregate dict by a later
row sharing the display text `x` but carrying a smaller count. -/
def dupTextRows : List Row :=
  [⟨"GO:1", "x", "BP", 100⟩, ⟨"GO:2", "x", "CC", 1⟩]

/-- A schema-complete table whose only row has occurrence count zero. -/
def zeroCountTable : Table :=
  ⟨["ID", "Description", "ONTOLOGY", "OccurrenceCount"], [⟨"GO:1", "a", "BP", 0⟩]⟩

/-- A schema-complete table with zero data rows. -/
def emptyRowTable : Table :=
  ⟨["ID", "Description", "ONTOLOGY", "OccurrenceCount"], []⟩

/-- A table lacking the `OccurrenceCount` column. -/
def missingColTable : Table := ⟨["ID", "Description", "ONTOLOGY"], []⟩

/-- Refinement comparison definition following the words of the claim about
the normalization denominator: the maximum `OccurrenceCount` over ALL rows
of the full table, overwritten rows included. -/
def specRowsMaxCount (rows : List Row) : ℕ :=
  (rows.map (fun r => r.OccurrenceCount)).foldr max 0

/-- Environment in which the external renderer and the image writer succeed. -/
def envAllOk : RunEnv := ⟨fun _ _ => Except.ok (), fun _ => Except.ok ()⟩

/-- Environment in which the renderer raises on the BP category only. -/
def envRenderFailsBP : RunEnv :=
  ⟨fun c _ => if c == "BP" then Except.error "renderer exception" else Except.ok (),
   fun _ => Except.ok ()⟩

/-- Environment in which every image save raises inside the guarded call. -/
def envSaveFails : RunEnv :=
  ⟨fun _ _ => Except.ok (), fun _ => Except.error "disk full"⟩

/-! ### Dictionary lemmas -/

theorem lookupFM_dictInsert (m : List (String × ℕ)) (k : String) (v : ℕ) (q : String) :
    lookupFM (dictInsert m k v) q = if q = k then some v else lookupFM m q := by
  induction m with
  | nil =>
    by_cases h : q = k
    · subst h; simp [dictInsert, lookupFM]
    · have h' : ¬ (k = q) := fun hc => h hc.symm
      simp [dictInsert, lookupFM, h, h']
  | cons p rest ih =>
    by_cases hpk : p.1 = k
    · by_cases hq : q = k
      · subst hq
        have h' : ¬ (p.1 = q) → False := fun hc => hc hpk
        simp [dictInsert, lookupFM, hpk]
      · have hkq : ¬ (k = q) := fun hc => hq hc.symm
        have hpq : ¬ (p.1 = q) := fun hc => hq (hc.symm.trans hpk)
        simp [dictInsert, lookupFM, hpk, hq, hkq, hpq]
    · by_cases hpq : p.1 = q
      · have hq : ¬ (q = k) := fun hc => hpk (hpq.trans hc)
        simp [dictInsert, lookupFM, hpk, hpq, hq]
      · simp [dictInsert, lookupFM, hpk, hpq, ih]

theorem mem_dictInsert {p : String × ℕ} {m : List (String × ℕ)} {k : String} {v : ℕ}
    (h : p ∈ dictInsert m k v) : p = (k, v) ∨ p ∈ m := by
  induction m with
  | nil => simpa [dictInsert] using h
  | cons q rest ih =>
    by_cases hqk : q.1 = k
    · simp only [dictInsert, hqk, beq_self_eq_true, if_true, List.mem_cons] at h
      rcases h with h | h
      · exact Or.inl h
      · exact Or.inr (List.mem_cons_of_mem _ h)
    · simp only [dictInsert, hqk, beq_iff_eq, if_false, List.mem_cons] at h
      rcases h with h | h
      · exact Or.inr (h ▸ List.mem_cons_self _ _)
      · rcases ih h with h' | h'
        · exact Or.inl h'
        · exact Or.inr (List.mem_cons_of_mem _ h')

theorem dictInsert_ne_nil (m : List (String × ℕ)) (k : String) (v : ℕ) :
    dictInsert m k v ≠ [] := by
  cases m with
  | nil => simp [dictInsert]
  | cons p rest =>
    by_cases h : p.1 = k <;> simp [dictInsert, h]

theorem foldIns_append (u : Bool) (m : List (String × ℕ)) (l1 l2 : List Row) :
    foldIns u m (l1 ++ l2) = foldIns u (foldIns u m l1) l2 :=
  List.foldl_append _ _ _ _

theorem lookupFM_foldIns_of_absent (u : Bool) (t : String) :
    ∀ (l : List Row) (m : List (String × ℕ)), (∀ r ∈ l, displayText u r ≠ t) →
      lookupFM (foldIns u m l) t = lookupFM m t := by
  intro l
  induction l with
  | nil => intro m _; rfl
  | cons r rest ih =>
    intro m h
    have hr : displayText u r ≠ t := h r (List.mem_cons_self _ _)
    have hrest : ∀ r' ∈ rest, displayText u r' ≠ t :=
      fun r' hm => h r' (List.mem_cons_of_mem _ hm)
    calc lookupFM (foldIns u m (r :: rest)) t
        = lookupFM (foldIns u (dictInsert m (displayText u r) r.OccurrenceCount) rest) t := rfl
      _ = lookupFM (dictInsert m (displayText u r) r.OccurrenceCount) t := ih _ hrest
      _ = lookupFM m t := by rw [lookupFM_dictInsert]; simp [Ne.symm hr]

theorem mem_foldIns (u : Bool) {p : String × ℕ} :
    ∀ (l : List Row) (m : List (String × ℕ)), p ∈ foldIns u m l →
      p ∈ m ∨ ∃ r ∈ l, displayText u r = p.1 ∧ r.OccurrenceCount = p.2 := by
  intro l
  induction l with
  | nil => intro m h; exact Or.inl h
  | cons r rest ih =>
    intro m h
    rcases ih (dictInsert m (displayText u r) r.OccurrenceCount) h with h' | h'
    · rcases mem_dictInsert h' with h'' | h''
      · exact Or.inr ⟨r, List.mem_cons_self _ _, by simp [h'']⟩
      · exact Or.inl h''
    · rcases h' with ⟨r', hm, hp⟩
      exact Or.inr ⟨r', List.mem_cons_of_mem _ hm, hp⟩

theorem foldIns_ne_nil (u : Bool) :
    ∀ (l : List Row) (m : List (String × ℕ)), m ≠ [] → foldIns u m l ≠ [] := by
  intro l
  induction l with
  | nil => intro m h; exact h
  | cons r rest ih =>
    intro m _
    exact ih _ (dictInsert_ne_nil _ _ _)

theorem buildFreqMap_ne_nil {rows : List Row} (u : Bool) (h : rows ≠ []) :
    buildFreqMap rows u ≠ [] := by
  cases rows with
  | nil => exact absurd rfl h
  | cons r rest =>
    exact foldIns_ne_nil u rest _ (dictInsert_ne_nil _ _ _)

theorem lookupFM_mem {m : List (String × ℕ)} {k : String} {v : ℕ}
    (h : lookupFM m k = some v) : (k, v) ∈ m := by
  induction m with
  | nil => simp [lookupFM] at h
  | cons p rest ih =>
    by_cases hpk : p.1 = k
    · simp only [lookupFM, hpk, beq_self_eq_true, if_true, Option.some.injEq] at h
      have hp : (k, v) = p := by
        obtain ⟨p1, p2⟩ := p
        simp_all
      exact hp ▸ List.mem_cons_self _ _
    · simp only [lookupFM, hpk, beq_iff_eq, if_false] at h
      exact List.mem_cons_of_mem _ (ih h)

/-- Last-write-wins: the aggregate dict binds a display text to the count of
the last row carrying that text. -/
theorem lookupFM_lastWins (u : Bool) (l1 l2 : List Row) (r : Row)
    (h : ∀ r' ∈ l2, displayText u r' ≠ displayText u r) :
    lookupFM (buildFreqMap (l1 ++ r :: l2) u) (displayText u r) = some r.OccurrenceCount := by
  have h1 : buildFreqMap (l1 ++ r :: l2) u
      = foldIns u (dictInsert (foldIns u [] l1) (displayText u r) r.OccurrenceCount) l2 := by
    rw [buildFreqMap, foldIns_append]
    rfl
  rw [h1, lookupFM_foldIns_of_absent u _ l2 _ h, lookupFM_dictInsert]
  simp

/-! ### Maximum lemmas -/

theorem foldl_max_facts (xs : List ℕ) :
    ∀ a : ℕ, a ≤ xs.foldl max a ∧ (∀ y ∈ xs, y ≤ xs.foldl max a) ∧
      (xs.foldl max a = a ∨ xs.foldl max a ∈ xs) := by
  induction xs with
  | nil => intro a; exact ⟨le_refl a, by simp, Or.inl rfl⟩
  | cons x rest ih =>
    intro a
    simp only [List.foldl_cons]
    obtain ⟨h1, h2, h3⟩ := ih (max a x)
    refine ⟨le_trans (le_max_left a x) h1, ?_, ?_⟩
    · intro y hy
      rcases List.mem_cons.mp hy with h | h
      · rw [h]; exact le_trans (le_max_right a x) h1
      · exact h2 y h
    · rcases h3 with h | h
      · rcases max_choice a x with hc | hc
        · exact Or.inl (by rw [h, hc])
        · exact Or.inr (by rw [h, hc]; exact List.mem_cons_self _ _)
      · exact Or.inr (List.mem_cons_of_mem _ h)

theorem listMax_of_ne_nil {l : List ℕ} (h : l ≠ []) : ∃ m, listMax l = some m := by
  cases l with
  | nil => exact absurd rfl h
  | cons x xs => exact ⟨xs.foldl max x, rfl⟩

theorem le_listMax {l : List ℕ} {M : ℕ} (h : listMax l = some M) : ∀ x ∈ l, x ≤ M := by
  cases l with
  | nil => simp [listMax] at h
  | cons x xs =>
    simp only [listMax, Option.some.injEq] at h
    obtain ⟨h1, h2, -⟩ := foldl_max_facts xs x
    intro y hy
    rw [← h]
    rcases List.mem_cons.mp hy with hc | hc
    · exact hc ▸ h1
    · exact h2 y hc

theorem listMax_mem {l : List ℕ} {M : ℕ} (h : listMax l = some M) : M ∈ l := by
  cases l with
  | nil => simp [listMax] at h
  | cons x xs =>
    simp only [listMax, Option.some.injEq] at h
    obtain ⟨-, -, h3⟩ := foldl_max_facts xs x
    rw [← h]
    rcases h3 with hc | hc
    · rw [hc]; exact List.mem_cons_self _ _
    · exact List.mem_cons_of_mem _ hc

/-! ### Color interpolation lemmas -/

theorem freqNorm_nonneg (f gm : ℕ) : 0 ≤ freqNorm f gm := by
  unfold freqNorm
  split
  · norm_num
  · exact le_min (by norm_num) (by positivity)

theorem freqNorm_le_one (f gm : ℕ) : freqNorm f gm ≤ 1 := by
  unfold freqNorm
  split
  · norm_num
  · exact min_le_left _ _

theorem freqNorm_self {gm : ℕ} (h : 0 < gm) : freqNorm gm gm = 1 := by
  unfold freqNorm
  rw [if_neg (Nat.pos_iff_ne_zero.mp h)]
  rw [div_self (by exact_mod_cast Nat.pos_iff_ne_zero.mp h)]
  exact min_self 1

theorem freqNorm_mono {f1 f2 : ℕ} (gm : ℕ) (h : f1 ≤ f2) :
    freqNorm f1 gm ≤ freqNorm f2 gm := by
  unfold freqNorm
  split
  · exact le_refl 1
  · rename_i hgm
    have hgm' : (0 : ℚ) < gm := by
      exact_mod_cast Nat.pos_of_ne_zero hgm
    exact min_le_min (le_refl 1) ((div_le_div_iff_of_pos_right hgm').mpr (by exact_mod_cast h))

theorem pyInt_of_nonneg {q : ℚ} (h : 0 ≤ q) : pyInt q = ⌊q⌋ := if_pos h

theorem pyInt_mono {p q : ℚ} (h : p ≤ q) : pyInt p ≤ pyInt q := by
  unfold pyInt
  by_cases hp : 0 ≤ p
  · rw [if_pos hp, if_pos (le_trans hp h)]
    exact Int.floor_le_floor h
  · rw [if_neg hp]
    by_cases hq : 0 ≤ q
    · rw [if_pos hq]
      have hc : ⌈p⌉ ≤ (0 : ℤ) := Int.ceil_le.mpr (by push_cast; exact le_of_not_le hp)
      exact le_trans hc (Int.floor_nonneg.mpr hq)
    · rw [if_neg hq]
      exact Int.ceil_le_ceil h

theorem fineIdx_le (f gm L : ℕ) : fineIdx f gm L ≤ L - 2 := min_le_right _ _

theorem colorIdx_eq_fineIdx (f gm : ℕ) {L : ℕ} (hL : 2 ≤ L) :
    colorIdx (freqNorm f gm) L = (fineIdx f gm L : ℤ) := by
  have hL1 : (1 : ℚ) ≤ (L : ℚ) := by exact_mod_cast le_trans one_le_two hL
  have h0 : (0 : ℚ) ≤ freqNorm f gm * ((L : ℚ) - 1) * 100 := by
    have hn := freqNorm_nonneg f gm
    have : (0 : ℚ) ≤ (L : ℚ) - 1 := by linarith
    positivity
  have hfl : 0 ≤ ⌊freqNorm f gm * ((L : ℚ) - 1) * 100⌋ := Int.floor_nonneg.mpr h0
  unfold colorIdx fineIdx
  rw [pyInt_of_nonneg h0, Nat.cast_min, Int.toNat_of_nonneg hfl, Nat.cast_sub hL]
  norm_num

theorem fineIdx_mono {f1 f2 : ℕ} (gm : ℕ) {L : ℕ} (hL : 1 ≤ L) (h : f1 ≤ f2) :
    fineIdx f1 gm L ≤ fineIdx f2 gm L := by
  have hL1 : (0 : ℚ) ≤ (L : ℚ) - 1 := by
    have : (1 : ℚ) ≤ (L : ℚ) := by exact_mod_cast hL
    linarith
  have hmul : freqNorm f1 gm * ((L : ℚ) - 1) * 100 ≤ freqNorm f2 gm * ((L : ℚ) - 1) * 100 :=
    mul_le_mul_of_nonneg_right (mul_le_mul_of_nonneg_right (freqNorm_mono gm h) hL1) (by norm_num)
  exact min_le_min (Int.toNat_le_toNat (Int.floor_le_floor hmul)) (le_refl _)

theorem fdiv_natCast_100 (k : ℕ) : (k : ℤ).fdiv 100 = ((k / 100 : ℕ) : ℤ) := by
  have hcast : ((100 : ℕ) : ℤ) = (100 : ℤ) := by norm_num
  rw [← hcast, ← Int.ofNat_fdiv]

theorem fmod_natCast_100 (k : ℕ) : (k : ℤ).fmod 100 = ((k % 100 : ℕ) : ℤ) := by
  have hcast : ((100 : ℕ) : ℤ) = (100 : ℤ) := by norm_num
  rw [← hcast, ← Int.ofNat_fmod]

theorem pyGet_natCast {α : Type} (l : List α) (n : ℕ) (d : α) (h : n < l.length) :
    pyGet l (n : ℤ) = some (l.getD n d) := by
  unfold pyGet
  rw [if_pos (Int.ofNat_nonneg n), Int.toNat_natCast, List.getD_eq_get l d h,
    List.get?_eq_get h]

/-- Under at least two palette stops, the color callback evaluates to the
per-channel ramp at the natural fine index: the palette subscriptions are in
range and succeed. -/
theorem custom_color_eval (fd : List (String × ℕ)) (gm : ℕ) (colors : List RGB) (w : String)
    (hL : 2 ≤ colors.length) :
    custom_color_func fd gm colors w =
      some (pyInt (rampVal colors (fun c => c.1) (fineIdx (freqOf fd w) gm colors.length) * 255),
            pyInt (rampVal colors (fun c => c.2.1) (fineIdx (freqOf fd w) gm colors.length) * 255),
            pyInt (rampVal colors (fun c => c.2.2) (fineIdx (freqOf fd w) gm colors.length) * 255)) := by
  have hk := fineIdx_le (freqOf fd w) gm colors.length
  set k := fineIdx (freqOf fd w) gm colors.length with hkdef
  have h1 : k / 100 < colors.length := by omega
  have h2 : k / 100 + 1 < colors.length := by omega
  simp only [custom_color_func]
  rw [colorIdx_eq_fineIdx _ _ hL, ← hkdef]
  have hfdiv := fdiv_natCast_100 k
  have hfmod := fmod_natCast_100 k
  have hs : startIdx (k : ℤ) = ((k / 100 : ℕ) : ℤ) := by
    unfold startIdx
    exact hfdiv
  have he : endIdx (k : ℤ) colors.length = ((k / 100 + 1 : ℕ) : ℤ) := by
    unfold endIdx
    rw [hfdiv, min_eq_left (by push_cast; omega)]
    push_cast
    rfl
  rw [hs, he, pyGet_natCast colors _ (0, 0, 0) h1, pyGet_natCast colors _ (0, 0, 0) h2]
  have ht : (((k : ℤ).fmod 100 : ℤ) : ℚ) = ((k % 100 : ℕ) : ℚ) := by
    rw [hfmod]
    norm_cast
  simp only [rampVal, lerp, ht]

theorem lerp_mono_t {a b t1 t2 : ℚ} (hab : a ≤ b) (h : t1 ≤ t2) :
    lerp a b t1 ≤ lerp a b t2 := by
  unfold lerp
  nlinarith

theorem lerp_le_right {a b t : ℚ} (hab : a ≤ b) (ht : t ≤ 1) : lerp a b t ≤ b := by
  unfold lerp
  nlinarith

theorem lerp_self (a t : ℚ) : lerp a a t = a := by
  unfold lerp
  ring

theorem lerp_zero (a b : ℚ) : lerp a b 0 = a := by
  unfold lerp
  ring

theorem rampVal_step (colors : List RGB) (proj : RGB → ℚ) (hadj : adjMonoIn colors proj)
    {k : ℕ} (hk : k + 3 ≤ colors.length) :
    rampVal colors proj k ≤ rampVal colors proj (k + 1) := by
  have hmono := hadj (k / 100) (by omega)
  by_cases hr : k % 100 = 99
  · have e1 : (k + 1) / 100 = k / 100 + 1 := by omega
    have e2 : (k + 1) % 100 = 0 := by omega
    have hval : rampVal colors proj (k + 1)
        = proj (colors.getD (k / 100 + 1) (0, 0, 0)) := by
      unfold rampVal
      rw [e1, e2]
      push_cast
      rw [zero_div]
      exact lerp_zero _ _
    rw [hval]
    unfold rampVal
    apply lerp_le_right hmono
    rw [hr]
    norm_num
  · have e1 : (k + 1) / 100 = k / 100 := by omega
    have e2 : (k + 1) % 100 = k % 100 + 1 := by omega
    unfold rampVal
    rw [e1, e2]
    apply lerp_mono_t hmono
    have : ((k % 100 : ℕ) : ℚ) ≤ ((k % 100 + 1 : ℕ) : ℚ) := by
      exact_mod_cast Nat.le_succ _
    have h100 : (0 : ℚ) < 100 := by norm_num
    exact (div_le_div_iff_of_pos_right h100).mpr this

theorem rampVal_mono (colors : List RGB) (proj : RGB → ℚ) (hadj : adjMonoIn colors proj)
    {i j : ℕ} (hij : i ≤ j) (hj : j + 2 ≤ colors.length) :
    rampVal colors proj i ≤ rampVal colors proj j := by
  induction j, hij using Nat.le_induction with
  | base => exact le_refl _
  | succ n hn ih =>
    exact le_trans (ih (by omega)) (rampVal_step colors proj hadj (by omega))

theorem pyGet_nil (i : ℤ) : pyGet ([] : List RGB) i = none := by
  unfold pyGet
  split
  · exact rfl
  split
  · exact rfl
  · exact rfl

/-- With at most one palette stop, the word plays no role: the fine index
collapses (to `-1` via negative wraparound when there is exactly one stop),
so the callback returns the same value for every word. -/
theorem custom_color_indep (fd : List (String × ℕ)) (gm : ℕ) (colors : List RGB)
    (w1 w2 : String) (hL : colors.length ≤ 1) :
    custom_color_func fd gm colors w1 = custom_color_func fd gm colors w2 := by
  match colors, hL with
  | [], _ =>
    simp [custom_color_func, pyGet_nil]
  | [c], _ =>
    have hidx : ∀ w : String,
        colorIdx (freqNorm (freqOf fd w) gm) (List.length [c]) = -1 := by
      intro w
      unfold colorIdx
      have hz : freqNorm (freqOf fd w) gm * (((List.length [c] : ℕ) : ℚ) - 1) * 100 = 0 := by
        simp
      rw [hz, pyInt_of_nonneg le_rfl, Int.floor_zero]
      simp
    simp only [custom_color_func, hidx]

/-! ### Claim C6: category filter -/

/-- C6: `filter_by_ontology` returns the table unchanged when the category
is absent or uppercases to `ALL`; otherwise it returns exactly the rows
whose `ONTOLOGY` equals the uppercased category, in their original order,
with no error on an empty result. -/
theorem filter_by_ontology_spec (df : List Row) (s : String) :
    filter_by_ontology df none = df ∧
    (pyUpper s = "ALL" → filter_by_ontology df (some s) = df) ∧
    (pyUpper s ≠ "ALL" →
      (filter_by_ontology df (some s)).Sublist df ∧
      (∀ r ∈ filter_by_ontology df (some s), r.ONTOLOGY = pyUpper s) ∧
      (∀ r ∈ df, r.ONTOLOGY = pyUpper s → r ∈ filter_by_ontology df (some s)) ∧
      (∀ r : Row, (filter_by_ontology df (some s)).count r =
        if r.ONTOLOGY = pyUpper s then df.count r else 0)) := by
  refine ⟨rfl, ?_, ?_⟩
  · intro h
    simp [filter_by_ontology, h]
  · intro h
    simp only [filter_by_ontology, if_neg h]
    refine ⟨List.filter_sublist _, ?_, ?_, ?_⟩
    · intro r hr
      exact eq_of_beq (List.mem_filter.mp hr).2
    · intro r hr hO
      exact List.mem_filter.mpr ⟨hr, by rw [hO]; exact beq_self_eq_true _⟩
    · intro r
      by_cases hO : r.ONTOLOGY = pyUpper s
      · rw [if_pos hO]
        exact List.count_filter (by rw [hO]; exact beq_self_eq_true _)
      · rw [if_neg hO]
        exact List.count_eq_zero.mpr (fun hmem => hO (eq_of_beq (List.mem_filter.mp hmem).2))

/-- C6 witness at the scenario table and category `bp`. -/
theorem filter_by_ontology_spec_witness :
    filter_by_ontology sampleTable.rows none = sampleTable.rows ∧
    ((filter_by_ontology sampleTable.rows (some "bp")).Sublist sampleTable.rows ∧
      ∀ r ∈ filter_by_ontology sampleTable.rows (some "bp"), r.ONTOLOGY = pyUpper "bp") := by
  obtain ⟨h1, -, h3⟩ := filter_by_ontology_spec sampleTable.rows "bp"
  obtain ⟨h4, h5, -⟩ := h3 (by decide)
  exact ⟨h1, h4, h5⟩

/-! ### Claim C7: last-write-wins frequency map -/

/-- C7: when several rows share one display text, the frequency map binds
that text to the occurrence count of the last such row in table order. -/
theorem buildFreqMap_lastWins (rows : List Row) (useId : Bool) (l1 l2 : List Row) (r : Row)
    (hsplit : rows = l1 ++ r :: l2)
    (hlast : ∀ r' ∈ l2, displayText useId r' ≠ displayText useId r) :
    lookupFM (buildFreqMap rows useId) (displayText useId r) = some r.OccurrenceCount := by
  rw [hsplit]
  exact lookupFM_lastWins useId l1 l2 r hlast

/-- C7 witness: the duplicate-text table binds `x` to the later count 1,
not the earlier count 100. -/
theorem buildFreqMap_lastWins_witness :
    lookupFM (buildFreqMap dupTextRows false) (displayText false ⟨"GO:2", "x", "CC", 1⟩) =
      some 1 := by
  have h := buildFreqMap_lastWins dupTextRows false [⟨"GO:1", "x", "BP", 100⟩] []
    ⟨"GO:2", "x", "CC", 1⟩ (by decide) (by decide)
  exact h

/-! ### Claim C10: palette subscriptions are in range -/

/-- C10: with at least two palette stops and a positive global maximum the
two palette subscripts are in range and the color callback succeeds, for
every word (hence every non-negative looked-up frequency). -/
theorem custom_color_indices_in_range (fd : List (String × ℕ)) (gm : ℕ) (colors : List RGB)
    (w : String) (hL : 2 ≤ colors.length) (hgm : 0 < gm) :
    0 ≤ startIdx (colorIdx (freqNorm (freqOf fd w) gm) colors.length) ∧
    startIdx (colorIdx (freqNorm (freqOf fd w) gm) colors.length) < colors.length ∧
    0 ≤ endIdx (colorIdx (freqNorm (freqOf fd w) gm) colors.length) colors.length ∧
    endIdx (colorIdx (freqNorm (freqOf fd w) gm) colors.length) colors.length < colors.length ∧
    (custom_color_func fd gm colors w).isSome = true := by
  rw [colorIdx_eq_fineIdx _ _ hL]
  have hk := fineIdx_le (freqOf fd w) gm colors.length
  set k := fineIdx (freqOf fd w) gm colors.length with hkdef
  have hs : startIdx (k : ℤ) = ((k / 100 : ℕ) : ℤ) := fdiv_natCast_100 k
  have he : endIdx (k : ℤ) colors.length = min (((k / 100 : ℕ) : ℤ) + 1) ((colors.length : ℤ) - 1) := by
    unfold endIdx
    rw [fdiv_natCast_100 k]
  refine ⟨?_, ?_, ?_, ?_, ?_⟩
  · rw [hs]; positivity
  · rw [hs]; push_cast; omega
  · rw [he]
    refine le_min (by positivity) ?_
    omega
  · rw [he]
    refine lt_of_le_of_lt (min_le_right _ _) ?_
    omega
  · rw [custom_color_eval fd gm colors w hL]
    rfl

/-- C10 witness at a concrete dict, palette and word. -/
theorem custom_color_indices_in_range_witness :
    (custom_color_func [("w", 5)] 5 [((0 : ℚ), (0 : ℚ), (0 : ℚ)), (1, 1, 1)] "w").isSome = true :=
  (custom_color_indices_in_range [("w", 5)] 5 [(0, 0, 0), (1, 1, 1)] "w"
    (by decide) (by decide)).2.2.2.2

/-! ### Claim C1: color at the global maximum frequency -/

/-- C1 counterexample: with the two-stop palette `[(0,0,0), (1,1,1)]` and a
word whose frequency equals the global maximum, the callback returns the
first stop `(0,0,0)`, not the last stop scaled to `(255,255,255)` — the
clamp `min(..., len(colors) - 2)` pins the fine index to the start of the
ramp. -/
theorem custom_color_at_max_counterexample :
    custom_color_func [("w", 5)] 5 [((0 : ℚ), (0 : ℚ), (0 : ℚ)), (1, 1, 1)] "w" = some (0, 0, 0) ∧
    custom_color_func [("w", 5)] 5 [((0 : ℚ), (0 : ℚ), (0 : ℚ)), (1, 1, 1)] "w" ≠
      some (255, 255, 255) := by
  have h := custom_color_eval [("w", 5)] 5 [(0, 0, 0), (1, 1, 1)] "w" (by decide)
  have hk : fineIdx (freqOf [("w", 5)] "w") 5
      (List.length [((0 : ℚ), (0 : ℚ), (0 : ℚ)), (1, 1, 1)]) = 0 := by
    unfold fineIdx
    simp
  rw [hk] at h
  have hval : custom_color_func [("w", 5)] 5
      [((0 : ℚ), (0 : ℚ), (0 : ℚ)), (1, 1, 1)] "w" = some (0, 0, 0) := by
    rw [h]
    norm_num [rampVal, lerp, pyInt]
  refine ⟨hval, ?_⟩
  rw [hval]
  decide

/-- C1 amended: for a palette with `2 ≤ L ≤ 101` stops and a looked-up
frequency equal to the positive global maximum, the returned color is the
interpolation between the FIRST two stops at parameter `(L-2)/100` — near
the first stop — rather than the last stop. -/
theorem custom_color_at_max_first_segment (fd : List (String × ℕ)) (gm : ℕ)
    (colors : List RGB) (w : String)
    (hL : 2 ≤ colors.length) (hL2 : colors.length ≤ 101) (hgm : 0 < gm)
    (hf : freqOf fd w = gm) :
    custom_color_func fd gm colors w =
      some (pyInt (lerp (colors.getD 0 (0, 0, 0)).1 (colors.getD 1 (0, 0, 0)).1
              (((colors.length - 2 : ℕ) : ℚ) / 100) * 255),
            pyInt (lerp (colors.getD 0 (0, 0, 0)).2.1 (colors.getD 1 (0, 0, 0)).2.1
              (((colors.length - 2 : ℕ) : ℚ) / 100) * 255),
            pyInt (lerp (colors.getD 0 (0, 0, 0)).2.2 (colors.getD 1 (0, 0, 0)).2.2
              (((colors.length - 2 : ℕ) : ℚ) / 100) * 255)) := by
  rw [custom_color_eval fd gm colors w hL]
  have h1L : 1 ≤ colors.length := by omega
  have hkmax : fineIdx (freqOf fd w) gm colors.length = colors.length - 2 := by
    unfold fineIdx
    rw [hf, freqNorm_self hgm, one_mul]
    have hc : ((colors.length : ℚ) - 1) * 100 = (((colors.length - 1) * 100 : ℕ) : ℚ) := by
      rw [Nat.cast_mul, Nat.cast_sub h1L]
      norm_num
    rw [hc, Int.floor_natCast, Int.toNat_natCast]
    omega
  rw [hkmax]
  have hd : (colors.length - 2) / 100 = 0 := by omega
  have hm : (colors.length - 2) % 100 = colors.length - 2 := by omega
  simp only [rampVal, hd, hm, zero_add]

/-- C1 amended witness: three stops, frequency equal to the global maximum. -/
theorem custom_color_at_max_first_segment_witness :
    freqOf [("w", 10)] "w" = 10 ∧
    custom_color_func [("w", 10)] 10 [((0 : ℚ), (0 : ℚ), (0 : ℚ)), (1, 1, 1), (2, 2, 2)] "w" ≠
      none := by
  refine ⟨by decide, ?_⟩
  rw [custom_color_at_max_first_segment [("w", 10)] 10 [(0, 0, 0), (1, 1, 1), (2, 2, 2)] "w"
    (by decide) (by decide) (by decide) (by decide)]
  simp

/-! ### Claim C8: monotonicity of the color ramp -/

/-- C8: for a palette non-decreasing in at least one channel and words
whose looked-up frequencies satisfy `f1 ≤ f2` under the same positive
global maximum, the color at the higher frequency is not strictly smaller
in all three channels. -/
theorem custom_color_monotone (fd : List (String × ℕ)) (gm : ℕ) (colors : List RGB)
    (w1 w2 : String) (hgm : 0 < gm)
    (hadj : adjMonoIn colors (fun c => c.1) ∨ adjMonoIn colors (fun c => c.2.1) ∨
      adjMonoIn colors (fun c => c.2.2))
    (hf : freqOf fd w1 ≤ freqOf fd w2) :
    ¬ allBelow ((custom_color_func fd gm colors w1).getD (0, 0, 0))
               ((custom_color_func fd gm colors w2).getD (0, 0, 0)) := by
  by_cases hL : 2 ≤ colors.length
  · rw [custom_color_eval fd gm colors w1 hL, custom_color_eval fd gm colors w2 hL]
    have hk12 : fineIdx (freqOf fd w1) gm colors.length ≤
        fineIdx (freqOf fd w2) gm colors.length :=
      fineIdx_mono gm (by omega) hf
    have hk2 : fineIdx (freqOf fd w2) gm colors.length + 2 ≤ colors.length := by
      have := fineIdx_le (freqOf fd w2) gm colors.length
      omega
    simp only [Option.getD_some]
    intro hall
    obtain ⟨h1, h2, h3⟩ := hall
    rcases hadj with hm | hm | hm
    · have hle := pyInt_mono (mul_le_mul_of_nonneg_right
        (rampVal_mono colors _ hm hk12 hk2) (by norm_num : (0 : ℚ) ≤ 255))
      exact absurd h1 (not_lt.mpr hle)
    · have hle := pyInt_mono (mul_le_mul_of_nonneg_right
        (rampVal_mono colors _ hm hk12 hk2) (by norm_num : (0 : ℚ) ≤ 255))
      exact absurd h2 (not_lt.mpr hle)
    · have hle := pyInt_mono (mul_le_mul_of_nonneg_right
        (rampVal_mono colors _ hm hk12 hk2) (by norm_num : (0 : ℚ) ≤ 255))
      exact absurd h3 (not_lt.mpr hle)
  · rw [custom_color_indep fd gm colors w1 w2 (by omega)]
    intro hall
    exact lt_irrefl _ hall.1

/-! ### Orchestration lemmas -/

theorem runLoop_render_ok (env : RunEnv) (df : List Row) (u : Bool) (flags : String → Bool)
    (allF : List (String × ℕ)) (hrender : ∀ cat data, env.render cat data = Except.ok ()) :
    ∀ cats : List (String × String),
      (runLoop env df u flags allF cats).2 = true ∧
      ∀ p ∈ cats, flags p.1 = true → filter_by_ontology df (some p.1) ≠ [] →
        Event.rendering p.1 (buildFreqMap (filter_by_ontology df (some p.1)) u).length ∈
          (runLoop env df u flags allF cats).1 := by
  intro cats
  induction cats with
  | nil => exact ⟨rfl, by simp⟩
  | cons cf rest ih =>
    obtain ⟨ih1, ih2⟩ := ih
    obtain ⟨cat, file⟩ := cf
    cases hflag : flags cat with
    | false =>
      have hres : runLoop env df u flags allF ((cat, file) :: rest) =
          runLoop env df u flags allF rest := by
        simp only [runLoop, hflag, Bool.false_eq_true, if_false]
      rw [hres]
      refine ⟨ih1, ?_⟩
      intro p hp hpf hpne
      rcases List.mem_cons.mp hp with hc | hc
      · rw [hc] at hpf
        rw [hflag] at hpf
        exact absurd hpf (by decide)
      · exact ih2 p hc hpf hpne
    | true =>
      cases hfil : (filter_by_ontology df (some cat)).isEmpty with
      | true =>
        have hres : runLoop env df u flags allF ((cat, file) :: rest) =
            (Event.skippedEmptyCat cat :: (runLoop env df u flags allF rest).1,
             (runLoop env df u flags allF rest).2) := by
          simp only [runLoop, hflag, if_true, hfil]
        rw [hres]
        refine ⟨ih1, ?_⟩
        intro p hp hpf hpne
        rcases List.mem_cons.mp hp with hc | hc
        · rw [hc] at hpne
          exact absurd (List.isEmpty_eq_true.mp hfil) hpne
        · exact List.mem_cons_of_mem _ (ih2 p hc hpf hpne)
      | false =>
        have hfne : filter_by_ontology df (some cat) ≠ [] := List.isEmpty_eq_false.mp hfil
        have hfreq : (buildFreqMap (filter_by_ontology df (some cat)) u).isEmpty = false :=
          List.isEmpty_eq_false.mpr (buildFreqMap_ne_nil u hfne)
        cases hsave : env.save file with
        | error e =>
          have hres : runLoop env df u flags allF ((cat, file) :: rest) =
              (Event.rendering cat (buildFreqMap (filter_by_ontology df (some cat)) u).length ::
                Event.saveFailed cat e :: (runLoop env df u flags allF rest).1,
               (runLoop env df u flags allF rest).2) := by
            simp only [runLoop, hflag, if_true, hfil, Bool.false_eq_true, if_false, hfreq,
              hrender cat _, hsave]
          rw [hres]
          refine ⟨ih1, ?_⟩
          intro p hp hpf hpne
          rcases List.mem_cons.mp hp with hc | hc
          · rw [hc]
            exact List.mem_cons_self _ _
          · exact List.mem_cons_of_mem _ (List.mem_cons_of_mem _ (ih2 p hc hpf hpne))
        | ok x =>
          have hres : runLoop env df u flags allF ((cat, file) :: rest) =
              (Event.rendering cat (buildFreqMap (filter_by_ontology df (some cat)) u).length ::
                Event.saved cat file :: (runLoop env df u flags allF rest).1,
               (runLoop env df u flags allF rest).2) := by
            simp only [runLoop, hflag, if_true, hfil, Bool.false_eq_true, if_false, hfreq,
              hrender cat _, hsave]
          rw [hres]
          refine ⟨ih1, ?_⟩
          intro p hp hpf hpne
          rcases List.mem_cons.mp hp with hc | hc
          · rw [hc]
            exact List.mem_cons_self _ _
          · exact List.mem_cons_of_mem _ (List.mem_cons_of_mem _ (ih2 p hc hpf hpne))

theorem dictValues_all_zero {rows : List Row} (u : Bool)
    (hzero : ∀ r ∈ rows, r.OccurrenceCount = 0) :
    ∀ v ∈ dictValues (buildFreqMap rows u), v = 0 := by
  intro v hv
  obtain ⟨p, hp, hpv⟩ := List.mem_map.mp hv
  rcases mem_foldIns u rows [] hp with hin | ⟨r, hr, -, hcnt⟩
  · exact absurd hin (List.not_mem_nil p)
  · rw [← hpv, ← hcnt]
    exact hzero r hr

theorem globalMaxFreq_zero {rows : List Row} (u : Bool) (hne : rows ≠ [])
    (hzero : ∀ r ∈ rows, r.OccurrenceCount = 0) :
    globalMaxFreq rows u = some 0 := by
  have hvne : dictValues (buildFreqMap rows u) ≠ [] := by
    intro hc
    exact buildFreqMap_ne_nil u hne (List.map_eq_nil_iff.mp hc)
  obtain ⟨m, hm⟩ := listMax_of_ne_nil hvne
  have hmz : m = 0 := dictValues_all_zero u hzero m (listMax_mem hm)
  rw [globalMaxFreq, hm, hmz]

/-- C8 witness: increasing two-stop palette, frequencies 1 and 2. -/
theorem custom_color_monotone_witness :
    (0 : ℕ) < 2 ∧ freqOf [("a", 1), ("b", 2)] "a" ≤ freqOf [("a", 1), ("b", 2)] "b" ∧
    ¬ allBelow
      ((custom_color_func [("a", 1), ("b", 2)] 2
        [((0 : ℚ), (0 : ℚ), (0 : ℚ)), (1, 1, 1)] "a").getD (0, 0, 0))
      ((custom_color_func [("a", 1), ("b", 2)] 2
        [((0 : ℚ), (0 : ℚ), (0 : ℚ)), (1, 1, 1)] "b").getD (0, 0, 0)) :=
  ⟨by decide, by decide,
    custom_color_monotone [("a", 1), ("b", 2)] 2 [(0, 0, 0), (1, 1, 1)] "a" "b"
      (by decide) (Or.inl (by simp only [adjMonoIn]; decide)) (by decide)⟩

/-! ### Claim C2: the normalization denominator -/

/-- C2 counterexample: in the duplicate-display-text table the row with
count 100 is overwritten by the later row with count 1, so the denominator
computed by the code is 1 while the maximum over all rows is 100. -/
theorem globalMaxFreq_counterexample :
    globalMaxFreq dupTextRows false = some 1 ∧
    specRowsMaxCount dupTextRows = 100 ∧
    globalMaxFreq dupTextRows false ≠ some (specRowsMaxCount dupTextRows) := by
  refine ⟨by decide, by decide, by decide⟩

/-- C2 amended: the denominator is the maximum over the values of the
last-write-wins aggregate map: it is the count of some row, and it bounds
the count of every row that is the last with its display text; counts of
overwritten rows do not contribute. -/
theorem globalMaxFreq_spec (rows : List Row) (u : Bool) (h : rows ≠ []) :
    ∃ m, globalMaxFreq rows u = some m ∧
      (∃ r ∈ rows, r.OccurrenceCount = m) ∧
      (∀ (l1 : List Row) (r : Row) (l2 : List Row), rows = l1 ++ r :: l2 →
        (∀ r' ∈ l2, displayText u r' ≠ displayText u r) → r.OccurrenceCount ≤ m) := by
  have hne : buildFreqMap rows u ≠ [] := buildFreqMap_ne_nil u h
  have hvne : dictValues (buildFreqMap rows u) ≠ [] := by
    intro hc
    exact hne (List.map_eq_nil_iff.mp hc)
  obtain ⟨m, hm⟩ := listMax_of_ne_nil hvne
  refine ⟨m, hm, ?_, ?_⟩
  · obtain ⟨p, hp, hpv⟩ := List.mem_map.mp (listMax_mem hm)
    rcases mem_foldIns u rows [] hp with hin | ⟨r, hr, -, hcnt⟩
    · exact absurd hin (List.not_mem_nil p)
    · exact ⟨r, hr, by rw [hcnt, hpv]⟩
  · intro l1 r l2 hsplit hlast
    have hlk : lookupFM (buildFreqMap rows u) (displayText u r) = some r.OccurrenceCount := by
      rw [hsplit]
      exact lookupFM_lastWins u l1 l2 r hlast
    have hval : r.OccurrenceCount ∈ dictValues (buildFreqMap rows u) :=
      List.mem_map.mpr ⟨_, lookupFM_mem hlk, rfl⟩
    exact le_listMax hm _ hval

/-- C2 amended witness at the duplicate-text table. -/
theorem globalMaxFreq_spec_witness :
    dupTextRows ≠ [] ∧ ∃ m, globalMaxFreq dupTextRows false = some m := by
  obtain ⟨m, h1, -, -⟩ := globalMaxFreq_spec dupTextRows false (by decide)
  exact ⟨by decide, m, h1⟩

/-! ### Claim C3: per-category failure isolation -/

/-- C3 counterexample: the renderer raising on BP aborts the whole run —
CC and MF are never processed, no summary is printed, and the outcome is
an uncaught exception, not a return value. -/
theorem render_failure_aborts :
    generate_go_wordcloud envRenderFailsBP (Except.ok sampleTable) "go_wordcloud" false
      true true true true =
    ([Event.rendering "ALL" 3, Event.saved "ALL" "go_wordcloud_all.png",
      Event.rendering "BP" 1], none) := by
  decide

/-- C3 amended: only save failures are per-category: when every render
call succeeds, the run returns `True` and the summary is printed whatever
the saves do, and every enabled category with matching rows is processed;
a renderer failure instead aborts the run uncaught. -/
theorem save_failure_does_not_abort (env : RunEnv) (t : Table) (outPfx : String)
    (u a b c d : Bool)
    (hmiss : missingCols t = []) (hrows : t.rows ≠ [])
    (hrender : ∀ cat data, env.render cat data = Except.ok ()) :
    (generate_go_wordcloud env (Except.ok t) outPfx u a b c d).2 = some true ∧
    (Event.summary t.rows.length
        ((t.rows.filter (fun r => r.ONTOLOGY == "BP")).length)
        ((t.rows.filter (fun r => r.ONTOLOGY == "CC")).length)
        ((t.rows.filter (fun r => r.ONTOLOGY == "MF")).length)) ∈
      (generate_go_wordcloud env (Except.ok t) outPfx u a b c d).1 ∧
    ∀ p ∈ catSettings outPfx, flagFor a b c d p.1 = true →
      filter_by_ontology t.rows (some p.1) ≠ [] →
      Event.rendering p.1 (buildFreqMap (filter_by_ontology t.rows (some p.1)) u).length ∈
        (generate_go_wordcloud env (Except.ok t) outPfx u a b c d).1 := by
  have hvne : dictValues (buildFreqMap t.rows u) ≠ [] := by
    intro hc
    exact buildFreqMap_ne_nil u hrows (List.map_eq_nil_iff.mp hc)
  obtain ⟨gm, hgm⟩ := listMax_of_ne_nil hvne
  obtain ⟨hok, hmem⟩ := runLoop_render_ok env t.rows u (flagFor a b c d)
    (buildFreqMap t.rows u) hrender (catSettings outPfx)
  have hgen : generate_go_wordcloud env (Except.ok t) outPfx u a b c d =
      ((runLoop env t.rows u (flagFor a b c d) (buildFreqMap t.rows u)
          (catSettings outPfx)).1 ++
        [Event.summary t.rows.length
          ((t.rows.filter (fun r => r.ONTOLOGY == "BP")).length)
          ((t.rows.filter (fun r => r.ONTOLOGY == "CC")).length)
          ((t.rows.filter (fun r => r.ONTOLOGY == "MF")).length)],
       some true) := by
    simp only [generate_go_wordcloud, hmiss, List.isEmpty_nil, if_true, hgm, hok]
  rw [hgen]
  refine ⟨rfl, ?_, ?_⟩
  · exact List.mem_append_right _ (List.mem_cons_self _ _)
  · intro p hp hpf hpne
    exact List.mem_append_left _ (hmem p hp hpf hpne)

/-- C3 amended witness: all saves fail, renders succeed, run completes. -/
theorem save_failure_does_not_abort_witness :
    missingCols sampleTable = [] ∧
    (generate_go_wordcloud envSaveFails (Except.ok sampleTable) "go_wordcloud" false
      true true true true).2 = some true :=
  ⟨by decide,
    (save_failure_does_not_abort envSaveFails sampleTable "go_wordcloud" false
      true true true true (by decide) (by decide) (fun _ _ => rfl)).1⟩

/-! ### Claim C4: zero global maximum -/

/-- C4 counterexample: a schema-complete all-zero table is not treated as
an error at the boundary: with a succeeding environment the run renders
every nonempty category and returns `True` — a truthy outcome with no
error report. -/
theorem zero_globalmax_counterexample :
    globalMaxFreq zeroCountTable.rows false = some 0 ∧
    generate_go_wordcloud envAllOk (Except.ok zeroCountTable) "p" false true true true true =
      ([Event.rendering "ALL" 1, Event.saved "ALL" "p_all.png",
        Event.rendering "BP" 1, Event.saved "BP" "p_bp.png",
        Event.skippedEmptyCat "CC", Event.skippedEmptyCat "MF",
        Event.summary 1 1 0 0], some true) := by
  refine ⟨by decide, by decide⟩

/-- C4 amended: the code never checks the global maximum for zero: on an
all-zero schema-complete table the denominator is computed as 0, the
per-category loop still runs, and the outcome is never the graceful
`False` of the load/schema boundary (with a raising renderer the
exception propagates instead). -/
theorem zero_globalmax_not_checked (env : RunEnv) (t : Table) (outPfx : String)
    (u a b c d : Bool)
    (hmiss : missingCols t = []) (hrows : t.rows ≠ [])
    (hzero : ∀ r ∈ t.rows, r.OccurrenceCount = 0) :
    globalMaxFreq t.rows u = some 0 ∧
    (generate_go_wordcloud env (Except.ok t) outPfx u a b c d).2 ≠ some false := by
  have hgm : globalMaxFreq t.rows u = some 0 := globalMaxFreq_zero u hrows hzero
  refine ⟨hgm, ?_⟩
  have hgm' : listMax (dictValues (buildFreqMap t.rows u)) = some 0 := hgm
  simp only [generate_go_wordcloud, hmiss, List.isEmpty_nil, if_true, hgm']
  cases hok : (runLoop env t.rows u (flagFor a b c d) (buildFreqMap t.rows u)
      (catSettings outPfx)).2 <;> simp

/-- C4 amended witness at the all-zero one-row table. -/
theorem zero_globalmax_not_checked_witness :
    globalMaxFreq zeroCountTable.rows false = some 0 ∧
    (generate_go_wordcloud envAllOk (Except.ok zeroCountTable) "p" false
      true true true true).2 ≠ some false :=
  zero_globalmax_not_checked envAllOk zeroCountTable "p" false true true true true
    (by decide) (by decide) (by decide)

/-! ### Claim C5: missing required columns -/

/-- C5: when required columns are missing the run reports exactly the
missing names, returns `False`, and saves no image. -/
theorem schema_error_reports_missing (env : RunEnv) (t : Table) (outPfx : String)
    (u a b c d : Bool) (h : missingCols t ≠ []) :
    generate_go_wordcloud env (Except.ok t) outPfx u a b c d =
      ([Event.schemaError (missingCols t)], some false) ∧
    (∀ col, col ∈ missingCols t ↔ col ∈ requiredCols ∧ col ∉ t.cols) ∧
    (∀ cat file,
      Event.saved cat file ∉ (generate_go_wordcloud env (Except.ok t) outPfx u a b c d).1) := by
  have h1 : (missingCols t).isEmpty = false := List.isEmpty_eq_false.mpr h
  have hmain : generate_go_wordcloud env (Except.ok t) outPfx u a b c d =
      ([Event.schemaError (missingCols t)], some false) := by
    simp only [generate_go_wordcloud, h1, Bool.false_eq_true, if_false]
  refine ⟨hmain, ?_, ?_⟩
  · intro col
    simp [missingCols, List.mem_filter, List.elem_iff]
  · intro cat file
    rw [hmain]
    simp

/-- C5 witness: the scenario table missing `OccurrenceCount`. -/
theorem schema_error_reports_missing_witness :
    missingCols missingColTable ≠ [] ∧
    generate_go_wordcloud envAllOk (Except.ok missingColTable) "p" false true true true true =
      ([Event.schemaError ["OccurrenceCount"]], some false) := by
  have h := (schema_error_reports_missing envAllOk missingColTable "p" false true true true true
    (by decide)).1
  refine ⟨by decide, ?_⟩
  rw [h]
  decide

/-! ### Claim C9: empty table raises -/

/-- C9: a schema-complete table with zero data rows makes `max()` raise on
an empty collection: the exception escapes uncaught (`none`) instead of a
`False` return. -/
theorem empty_rows_uncaught (env : RunEnv) (t : Table) (outPfx : String)
    (u a b c d : Bool) (h1 : missingCols t = []) (h2 : t.rows = []) :
    generate_go_wordcloud env (Except.ok t) outPfx u a b c d = ([], none) ∧
    (generate_go_wordcloud env (Except.ok t) outPfx u a b c d).2 ≠ some false ∧
    (generate_go_wordcloud env (Except.ok t) outPfx u a b c d).2 ≠ some true := by
  have hmain : generate_go_wordcloud env (Except.ok t) outPfx u a b c d = ([], none) := by
    simp only [generate_go_wordcloud, h1, List.isEmpty_nil, if_true, h2]
    rfl
  refine ⟨hmain, ?_, ?_⟩ <;> rw [hmain] <;> simp

/-- C9 witness at the schema-complete empty table. -/
theorem empty_rows_uncaught_witness :
    generate_go_wordcloud envAllOk (Except.ok emptyRowTable) "p" false true true true true =
      ([], none) :=
  (empty_rows_uncaught envAllOk emptyRowTable "p" false true true true true
    (by decide) (by decide)).1

end GoCloud
